import Mathlib

/-!
# Sheep: a sharded, idempotent counter service

A verification development over the Go sources

* `database/mock/mock.go` (the in-memory store and queue),
* `database/spanner/spanner.go` (the sharded transactional store),
* `database/rabbitmq/rabbitmq.go` (the broker-backed queue).

Stateful Go code is embedded by explicit state passing: a method that mutates
its receiver returns the new receiver next to its Go return value, and a
method that writes through a pointer argument returns the new pointee.
`int64` values are integers, and the wrap-around of `++` and `--` is explicit.
-/

namespace Sheep

/-! ## Shared data model -/

/-- Modelled from the spec: the Operation Record `database.Message`, whose
declaration is not among the sources. The fields are the ones the stores and
queues read and write: the counter identity, the operation kind, the `int64`
payload and the dedup UUID. -/
structure Message where
  Keyspace : String
  Key : String
  Name : String
  Operation : String
  UUID : String
  Value : Int
deriving DecidableEq, Repr

/-- The gRPC status codes the sources use (`google.golang.org/grpc/codes`). -/
inductive Codes where
  | NotFound
  | Internal
  | InvalidArgument
  | OutOfRange
deriving DecidableEq, Repr

/-- Go `error` values produced by the sources: a `*spanner.Error` carrying a
status code, or an `errors.New` value carrying its text. The Go `nil` error is
`none` of `Option Err`. -/
inductive Err where
  | spannerError (code : Codes)
  | errorsNew (text : String)
deriving DecidableEq, Repr

/-- Two's-complement wrap-around of Go `int64` arithmetic. -/
def wrapInt64 (x : Int) : Int :=
  (x + 2 ^ 63) % 2 ^ 64 - 2 ^ 63

/-- The value fits the Go type `int64` (the Spanner column type `INT64`). -/
def inInt64 (x : Int) : Bool :=
  decide (-2 ^ 63 ≤ x) && decide (x < 2 ^ 63)

/-- A Go `map[string]V`: a key is either absent or bound to a value. -/
abbrev GoMap (α : Type) := String → Option α

namespace GoMap

/-- The map returned by `make(map[string]V)`. -/
def empty {α : Type} : GoMap α := fun _ => none

/-- Go's `m[k]`: the bound value, or the zero value of the type when the key
is absent. -/
def get {α : Type} (zero : α) (m : GoMap α) (k : String) : α :=
  (m k).getD zero

/-- Go's `m[k] = v`. -/
def set {α : Type} (m : GoMap α) (k : String) (v : α) : GoMap α :=
  fun k' => if k' = k then some v else m k'

end GoMap

/-! ## The mock store (`database/mock/mock.go`) -/

namespace Mock

/-- The struct `MockDatabase`, without its mutex. -/
structure MockDatabase where
  ForceError : Bool
  db : GoMap Int
  exists_ : GoMap Bool
  log : GoMap Bool

/-- The constructor `NewMockDatabase`. -/
def NewMockDatabase (forceError : Bool) : MockDatabase :=
  { ForceError := forceError, db := GoMap.empty, exists_ := GoMap.empty, log := GoMap.empty }

/-- The map key `m.Keyspace + m.Key + m.Name` used by `Save` and `Read`. -/
def key (m : Message) : String :=
  m.Keyspace ++ m.Key ++ m.Name

/-- The method `MockDatabase.SaveError`. -/
def SaveError (_m : Message) : Err :=
  Err.spannerError Codes.Internal

/-- The method `MockDatabase.ReadError`. -/
def ReadError (_m : Message) : Err :=
  Err.spannerError Codes.Internal

/-- The method `MockDatabase.Save`: the returned error and the store after the
call. The dedup log is consulted and written first, under the UUID alone; the
operation switch follows. -/
def Save (db : MockDatabase) (m : Message) : Option Err × MockDatabase :=
  if db.ForceError then (some (SaveError m), db)
  else if GoMap.get false db.log m.UUID then (none, db)
  else
    let db1 : MockDatabase := { db with log := GoMap.set db.log m.UUID true }
    let k := key m
    if m.Operation = "INCR" then
      (none, { db1 with
        db := GoMap.set db1.db k (wrapInt64 (GoMap.get 0 db1.db k + 1)),
        exists_ := GoMap.set db1.exists_ k true })
    else if m.Operation = "DECR" then
      (none, { db1 with
        db := GoMap.set db1.db k (wrapInt64 (GoMap.get 0 db1.db k - 1)),
        exists_ := GoMap.set db1.exists_ k true })
    else if m.Operation = "SET" then
      (none, { db1 with
        db := GoMap.set db1.db k m.Value,
        exists_ := GoMap.set db1.exists_ k true })
    else (some (Err.errorsNew "invalid op"), db1)

/-- The method `MockDatabase.Read`: the returned error and the message after
the call (`Read` writes `m.Value` through the pointer on success only). -/
def Read (db : MockDatabase) (m : Message) : Option Err × Message :=
  if db.ForceError then (some (ReadError m), m)
  else if !(GoMap.get false db.exists_ (key m)) then (some (Err.spannerError Codes.NotFound), m)
  else (none, { m with Value := GoMap.get 0 db.db (key m) })

/-- The store after a sequence of `Save` calls, in order. -/
def saveAll (db : MockDatabase) (ms : List Message) : MockDatabase :=
  ms.foldl (fun s m => (Save s m).2) db

/-- The store after `k` successive calls `Save(m)` with the same record. -/
def saveTimes (db : MockDatabase) (m : Message) : Nat → MockDatabase
  | 0 => db
  | k + 1 => saveTimes (Save db m).2 m k

/-! ## The mock queue (`database/mock/mock.go`) -/

/-- The struct `MockQueue`: the fault-injection flag and the slice of pending
records. The channel `c` carries one token per pending record; a delivery step
consumes one token, so it is enabled exactly when a record is pending. -/
structure MockQueue where
  ForceError : Bool
  queue : List Message

/-- The constructor `NewMockQueue`. -/
def NewMockQueue (forceError : Bool) : MockQueue :=
  { ForceError := forceError, queue := [] }

/-- The method `MockQueue.Save`: append the record to the slice. -/
def MockQueue.Save (q : MockQueue) (m : Message) : Option Err × MockQueue :=
  if q.ForceError then (some (Err.spannerError Codes.Internal), q)
  else (none, { q with queue := q.queue ++ [m] })

/-- One delivery step of `MockQueue.Read` with a handler `fn` that may change a
state of type `σ` (a Go closure over a store). Returns the error of `Read`, the
record handed to the handler (if any), the queue and the handler state after
the step. With no pending record the receive on `c` blocks and nothing
happens. -/
def MockQueue.Read {σ : Type} (q : MockQueue) (fn : σ → Message → Bool × σ) (s : σ) :
    Option Err × Option Message × MockQueue × σ :=
  if q.ForceError then (some (Err.spannerError Codes.Internal), none, q, s)
  else
    match q.queue with
    | [] => (none, none, q, s)
    | m :: rest =>
      let q1 : MockQueue := { q with queue := rest }
      let r := fn s m
      if r.1 then (none, some m, q1, r.2)
      else (none, some m, (q1.Save m).2, r.2)

/-- The handler closure that `MockQueue.StartWork` passes to `Read`, for a
store whose `Save` is `save`: false exactly when `save` returns an error. -/
def startWorkHandler {σ : Type} (save : σ → Message → Option Err × σ) :
    σ → Message → Bool × σ :=
  fun db msg =>
    let r := save db msg
    match r.1 with
    | some _ => (false, r.2)
    | none => (true, r.2)

/-- The queue and handler state after `n` successive delivery steps. -/
def MockQueue.readTimes {σ : Type} (fn : σ → Message → Bool × σ) :
    Nat → MockQueue → σ → MockQueue × σ
  | 0, q, s => (q, s)
  | n + 1, q, s =>
    let r := q.Read fn s
    MockQueue.readTimes fn n r.2.2.1 r.2.2.2

end Mock

/-! ## The Spanner store (`database/spanner/spanner.go`) -/

namespace Spanner

/-- A row of table `sheep`, primary key `(Keyspace, Key, Name, Shard)`. -/
structure SheepRow where
  Keyspace : String
  Key : String
  Name : String
  Shard : Nat
  Count : Int
deriving DecidableEq, Repr

/-- A row of table `sheep_transaction`, primary key
`(Keyspace, Key, Name, UUID)`. -/
structure TransactionRow where
  Keyspace : String
  Key : String
  Name : String
  UUID : String
  Time : Nat
deriving DecidableEq, Repr

/-- The two tables the store reads and writes. -/
structure Tables where
  sheep : List SheepRow
  sheep_transaction : List TransactionRow
deriving DecidableEq, Repr

/-- The tables right after `createSpannerDatabase`. -/
def Tables.empty : Tables :=
  { sheep := [], sheep_transaction := [] }

/-- The row belongs to the counter `(Keyspace, Key, Name)` of the message. -/
def SheepRow.ofCounter (msg : Message) (r : SheepRow) : Bool :=
  r.Keyspace = msg.Keyspace && r.Key = msg.Key && r.Name = msg.Name

/-- Two shard rows have the same primary key. -/
def SheepRow.sameKey (a b : SheepRow) : Bool :=
  a.Keyspace = b.Keyspace && a.Key = b.Key && a.Name = b.Name && a.Shard = b.Shard

/-- Two log rows have the same primary key. -/
def TransactionRow.sameKey (a b : TransactionRow) : Bool :=
  a.Keyspace = b.Keyspace && a.Key = b.Key && a.Name = b.Name && a.UUID = b.UUID

/-- The call `ReadRow(ctx, "sheep", Key{Keyspace, Key, Name, shard}, {"Count"})`:
the `Count` of the row with that key, `none` for `NotFound`. -/
def readSheep (rows : List SheepRow) (msg : Message) (shard : Nat) : Option Int :=
  (rows.find? (fun r => r.ofCounter msg && r.Shard = shard)).map (fun r => r.Count)

/-- The call `ReadRow(ctx, "sheep_transaction", Key{Keyspace, Key, Name, UUID},
{"UUID"})`: the row with that key, `none` for `NotFound`. -/
def readTransaction (rows : List TransactionRow) (msg : Message) : Option TransactionRow :=
  rows.find? (fun r =>
    r.Keyspace = msg.Keyspace && r.Key = msg.Key && r.Name = msg.Name && r.UUID = msg.UUID)

/-- The mutation `InsertOrUpdate` on table `sheep`: overwrite the row with the
same primary key, or insert. -/
def insertOrUpdateSheep (row : SheepRow) : List SheepRow → List SheepRow
  | [] => [row]
  | r :: rs => if r.sameKey row then row :: rs else r :: insertOrUpdateSheep row rs

/-- The mutation `InsertOrUpdate` on table `sheep_transaction`. -/
def insertOrUpdateTransaction (row : TransactionRow) : List TransactionRow → List TransactionRow
  | [] => [row]
  | r :: rs => if r.sameKey row then row :: rs else r :: insertOrUpdateTransaction row rs

/-- A buffered `*spanner.Mutation`: an `InsertOrUpdate` on one of the tables. -/
inductive Mutation where
  | sheep (row : SheepRow)
  | sheep_transaction (row : TransactionRow)
deriving DecidableEq, Repr

/-- The effect of one mutation at commit. -/
def applyMutation (t : Tables) : Mutation → Tables
  | Mutation.sheep row => { t with sheep := insertOrUpdateSheep row t.sheep }
  | Mutation.sheep_transaction row =>
    { t with sheep_transaction := insertOrUpdateTransaction row t.sheep_transaction }

/-- The call `rw.BufferWrite(m)` followed by the commit of the read-write
transaction: the mutations take effect together, in order. -/
def BufferWrite (t : Tables) (m : List Mutation) : Tables :=
  m.foldl applyMutation t

/-- The transaction body `Spanner.doSave` on message `msg`: the returned error
and the tables after the commit. `shards` is the configured
`spanner.shards`, `shard` the value drawn by `rand.Intn(shards)` (which lies
in `[0, shards)` and needs `shards > 0`), `now` the value of `time.Now()`.
Backend failures of `ReadRow` other than `NotFound` are not modelled. -/
def doSave (shards shard now : Nat) (t : Tables) (msg : Message) : Option Err × Tables :=
  match readTransaction t.sheep_transaction msg with
  | some _ => (none, t)
  | none =>
    let move0 : Int := (readSheep t.sheep msg shard).getD 0
    let moved : Option Int :=
      if msg.Operation = "INCR" then some (wrapInt64 (move0 + 1))
      else if msg.Operation = "DECR" then some (wrapInt64 (move0 - 1))
      else if msg.Operation = "SET" then some msg.Value
      else none
    match moved with
    | none => (some (Err.spannerError Codes.InvalidArgument), t)
    | some move =>
      let m : List Mutation :=
        if msg.Operation = "SET" then
          (List.range shards).map
            (fun i => Mutation.sheep ⟨msg.Keyspace, msg.Key, msg.Name, i, move⟩)
        else [Mutation.sheep ⟨msg.Keyspace, msg.Key, msg.Name, shard, move⟩]
      let m := m ++ [Mutation.sheep_transaction ⟨msg.Keyspace, msg.Key, msg.Name, msg.UUID, now⟩]
      (none, BufferWrite t m)

/-- What the database behind `s.client` does when a `SUM` over an `INT64`
column leaves the `int64` range. The database is not part of the repository:
the in-memory test server adds with Go `int64` wrap-around, Cloud Spanner
fails the query with a range error. -/
inductive SumOverflow where
  | wraps
  | fails
deriving DecidableEq, Repr

/-- The query of `Spanner.Read`, `SELECT SUM(a.Count) FROM sheep WHERE ...`,
as answered through `iter.Next()`: an error of the query, or the `NullInt64`
column, `none` being SQL `NULL`, the sum over no rows. A sum inside the
`int64` range is returned as it is; outside it the answer is the one of the
database, `overflow`. -/
def sumCount (overflow : SumOverflow) (rows : List SheepRow) (msg : Message) :
    Except Err (Option Int) :=
  let sel := rows.filter (fun r => r.ofCounter msg)
  if sel.isEmpty then Except.ok none
  else
    let total := (sel.map (fun r => r.Count)).sum
    if inInt64 total then Except.ok (some total)
    else
      match overflow with
      | SumOverflow.wraps => Except.ok (some (wrapInt64 total))
      | SumOverflow.fails => Except.error (Err.spannerError Codes.OutOfRange)

/-- The method `Spanner.Read` against a database with the given overflow
behaviour: the returned error and the message after the call. An error of the
query is returned as it is; `msg.Value` is written only when the sum is
valid; a `NULL` sum gives `NotFound`. Transport failures are not modelled. -/
def Read (overflow : SumOverflow) (t : Tables) (msg : Message) : Option Err × Message :=
  match sumCount overflow t.sheep msg with
  | Except.error e => (some e, msg)
  | Except.ok (some v) => (none, { msg with Value := v })
  | Except.ok none => (some (Err.spannerError Codes.NotFound), msg)

/-- The shard rows that `doSave` writes for a recognised operation. -/
def writtenRows (shards shard : Nat) (msg : Message) (move : Int) : List SheepRow :=
  if msg.Operation = "SET" then
    (List.range shards).map (fun i => ⟨msg.Keyspace, msg.Key, msg.Name, i, move⟩)
  else [⟨msg.Keyspace, msg.Key, msg.Name, shard, move⟩]

/-- The value `doSave` computes in `move`, `none` for an unrecognised
operation. -/
def movedValue (t : Tables) (shard : Nat) (msg : Message) : Option Int :=
  if msg.Operation = "INCR" then some (wrapInt64 ((readSheep t.sheep msg shard).getD 0 + 1))
  else if msg.Operation = "DECR" then some (wrapInt64 ((readSheep t.sheep msg shard).getD 0 - 1))
  else if msg.Operation = "SET" then some msg.Value
  else none

/-- The counter `(Keyspace, Key, Name)` a message addresses. -/
def counterOf (m : Message) : String × String × String :=
  (m.Keyspace, m.Key, m.Name)

/-- The counter a shard row belongs to. -/
def SheepRow.counter (r : SheepRow) : String × String × String :=
  (r.Keyspace, r.Key, r.Name)

/-- The counter a log row belongs to. -/
def TransactionRow.counter (r : TransactionRow) : String × String × String :=
  (r.Keyspace, r.Key, r.Name)

/-- Every log row has a shard row of the same counter. -/
def logCovered (t : Tables) : Prop :=
  ∀ r ∈ t.sheep_transaction, ∃ s ∈ t.sheep, s.counter = r.counter

instance (t : Tables) : Decidable (logCovered t) := by
  unfold logCovered; infer_instance

/-- The sum of `Count` over the shard rows of the message's counter. -/
def sumOf (rows : List SheepRow) (msg : Message) : Int :=
  ((rows.filter (fun r => r.ofCounter msg)).map (fun r => r.Count)).sum

/-- One call of `doSave`: the drawn shard, the clock and the message. -/
structure Call where
  shard : Nat
  now : Nat
  msg : Message
deriving DecidableEq, Repr

/-- The tables after a sequence of `doSave` calls, in order. -/
def doSaveAll (shards : Nat) (t : Tables) (calls : List Call) : Tables :=
  calls.foldl (fun t c => (doSave shards c.shard c.now t c.msg).2) t

/-- The number of calls in the sequence whose operation is `op`. -/
def countOp (op : String) (calls : List Call) : Nat :=
  (calls.filter (fun c => c.msg.Operation = op)).length

end Spanner

/-! ## The RabbitMQ queue (`database/rabbitmq/rabbitmq.go`) -/

namespace Rabbitmq

/-- How a Go call ends: it returns its `error` result, or the goroutine
panics with a run-time error. -/
inductive Outcome where
  | returned (err : Option Err)
  | panicked (reason : String)
deriving DecidableEq, Repr

/-- The struct `Channel`. The broker's answers to `Publish` and `TxCommit` on
the wrapped `*amqp.Channel` are recorded as data. -/
structure Channel where
  publish : Option Err
  txCommit : Option Err
deriving DecidableEq, Repr

/-- The struct `Connection`; `Channels` is a slice of pointers, `none` being
the `nil` pointer that `newChannel` returns on failure. -/
structure Connection where
  host : String
  connected : Bool
  Channels : List (Option Channel)
deriving DecidableEq, Repr

/-- The struct `RabbitMQ`. -/
structure RabbitMQ where
  connections : List Connection
deriving DecidableEq, Repr

/-- The method `Connection.reset`: drop the connection and every channel. -/
def Connection.reset (c : Connection) : Connection :=
  { c with connected := false, Channels := [] }

/-- The method `RabbitMQ.Save`. `json.Marshal` of a message cannot fail; the
two index expressions `r.connections[0]` and `.Channels[0]` are bounds-checked
by the Go run time. -/
def Save (r : RabbitMQ) (_message : Message) : Outcome :=
  match r.connections[0]? with
  | none => Outcome.panicked "index out of range [0] with length 0"
  | some c =>
    match c.Channels[0]? with
    | none => Outcome.panicked "index out of range [0] with length 0"
    | some none => Outcome.panicked "invalid memory address or nil pointer dereference"
    | some (some ch) =>
      match ch.publish with
      | some e => Outcome.returned (some e)
      | none => Outcome.returned ch.txCommit

end Rabbitmq

/-! ## Auxiliary facts -/

theorem wrapInt64_of_inRange (x : Int) (h1 : -2 ^ 63 ≤ x) (h2 : x < 2 ^ 63) :
    wrapInt64 x = x := by
  unfold wrapInt64
  have h : (x + 2 ^ 63) % 2 ^ 64 = x + 2 ^ 63 := Int.emod_eq_of_lt (by omega) (by omega)
  omega

theorem GoMap.get_set_self {α : Type} (zero : α) (m : GoMap α) (k : String) (v : α) :
    GoMap.get zero (GoMap.set m k v) k = v := by
  simp [GoMap.get, GoMap.set]

namespace Mock

theorem Save_Save (db : MockDatabase) (m : Message) :
    (Save (Save db m).2 m).2 = (Save db m).2 := by
  by_cases hf : db.ForceError = true
  · simp [Save, hf]
  · by_cases hl : GoMap.get false db.log m.UUID = true
    · simp [Save, hf, hl]
    · have hs : GoMap.get false (GoMap.set db.log m.UUID true) m.UUID = true :=
        GoMap.get_set_self false db.log m.UUID true
      by_cases h1 : m.Operation = "INCR"
      · simp [Save, hf, hl, h1, hs]
      · by_cases h2 : m.Operation = "DECR"
        · simp [Save, hf, hl, h1, h2, hs]
        · by_cases h3 : m.Operation = "SET"
          · simp [Save, hf, hl, h1, h2, h3, hs]
          · simp [Save, hf, hl, h1, h2, h3, hs]

theorem saveTimes_succ (m : Message) (k : Nat) :
    ∀ db : MockDatabase, saveTimes db m (k + 1) = (Save db m).2 := by
  induction k with
  | zero => intro db; rfl
  | succ n ih =>
    intro db
    show saveTimes (Save db m).2 m (n + 1) = (Save db m).2
    rw [ih (Save db m).2, Save_Save]

theorem Save_ForceError (db : MockDatabase) (m : Message) :
    (Save db m).2.ForceError = db.ForceError := by
  unfold Save
  split
  · rfl
  · split
    · rfl
    · split
      · rfl
      · split
        · rfl
        · split <;> rfl

/-- A `Save` touches the count and the existence flag of its own key only. -/
theorem Save_other_key (db : MockDatabase) (m : Message) (k : String) (h : key m ≠ k) :
    (Save db m).2.exists_ k = db.exists_ k ∧ (Save db m).2.db k = db.db k := by
  have h' : ¬ k = key m := fun e => h e.symm
  unfold Save
  split
  · exact ⟨rfl, rfl⟩
  · split
    · exact ⟨rfl, rfl⟩
    · split
      · simp [GoMap.set, h']
      · split
        · simp [GoMap.set, h']
        · split
          · simp [GoMap.set, h']
          · exact ⟨rfl, rfl⟩

theorem saveAll_ForceError (ms : List Message) :
    ∀ db : MockDatabase, (saveAll db ms).ForceError = db.ForceError := by
  induction ms with
  | nil => intro db; rfl
  | cons m ms ih =>
    intro db
    show (saveAll (Save db m).2 ms).ForceError = _
    rw [ih, Save_ForceError]

theorem saveAll_other_key (k : String) (ms : List Message) :
    ∀ db : MockDatabase, (∀ m ∈ ms, key m ≠ k) →
      (saveAll db ms).exists_ k = db.exists_ k ∧ (saveAll db ms).db k = db.db k := by
  induction ms with
  | nil => intro db _; exact ⟨rfl, rfl⟩
  | cons m ms ih =>
    intro db h
    have h1 := Save_other_key db m k (h m (List.mem_cons_self _ _))
    have h2 := ih (Save db m).2 (fun x hx => h x (List.mem_cons_of_mem _ hx))
    show (saveAll (Save db m).2 ms).exists_ k = _ ∧ (saveAll (Save db m).2 ms).db k = _
    exact ⟨h2.1.trans h1.1, h2.2.trans h1.2⟩

theorem MockQueue.Read_ForceError {σ : Type} (q : MockQueue) (fn : σ → Message → Bool × σ)
    (s : σ) : (q.Read fn s).2.2.1.ForceError = q.ForceError := by
  unfold MockQueue.Read
  split
  · rfl
  · split
    · rfl
    · simp only [MockQueue.Save]
      split
      · rfl
      · rfl

theorem MockQueue.Read_cons {σ : Type} (q : MockQueue) (fn : σ → Message → Bool × σ) (s : σ)
    (m : Message) (rest : List Message) (hf : q.ForceError = false) (hq : q.queue = m :: rest) :
    (q.Read fn s).1 = none ∧ (q.Read fn s).2.1 = some m ∧ (q.Read fn s).2.2.2 = (fn s m).2 ∧
      (q.Read fn s).2.2.1.queue = if (fn s m).1 then rest else rest ++ [m] := by
  unfold MockQueue.Read
  simp only [hf, hq, Bool.false_eq_true, if_false]
  by_cases h : (fn s m).1 = true
  · simp [h]
  · simp [h, MockQueue.Save, hf]

/-- A pending record reaches the head of the queue after as many delivery
steps as there are records before it. -/
theorem MockQueue.readTimes_reaches {σ : Type} (fn : σ → Message → Bool × σ) (m : Message) :
    ∀ (pre suf : List Message) (q : MockQueue) (s : σ), q.ForceError = false →
      q.queue = pre ++ m :: suf →
      (MockQueue.readTimes fn pre.length q s).1.ForceError = false ∧
        ∃ suf', (MockQueue.readTimes fn pre.length q s).1.queue = m :: suf' := by
  intro pre
  induction pre with
  | nil =>
    intro suf q s hf hq
    exact ⟨hf, suf, by simpa [MockQueue.readTimes] using hq⟩
  | cons a pre ih =>
    intro suf q s hf hq
    have hq' : q.queue = a :: (pre ++ m :: suf) := by simpa using hq
    obtain ⟨_, _, _, h4⟩ := MockQueue.Read_cons q fn s a (pre ++ m :: suf) hf hq'
    have hf' : (q.Read fn s).2.2.1.ForceError = false := by
      rw [MockQueue.Read_ForceError]; exact hf
    show (MockQueue.readTimes fn pre.length (q.Read fn s).2.2.1 (q.Read fn s).2.2.2).1.ForceError
        = false ∧ ∃ suf', (MockQueue.readTimes fn pre.length (q.Read fn s).2.2.1
          (q.Read fn s).2.2.2).1.queue = m :: suf'
    by_cases h : (fn s a).1 = true
    · exact ih suf _ _ hf' (by rw [h4]; simp [h])
    · exact ih (suf ++ [a]) _ _ hf' (by rw [h4]; simp [h])

end Mock

namespace Spanner

theorem foldl_applyMutation_sheep_transaction (rows : List SheepRow) :
    ∀ t : Tables,
      (List.foldl applyMutation t (rows.map Mutation.sheep)).sheep_transaction
        = t.sheep_transaction := by
  induction rows with
  | nil => intro t; rfl
  | cons r rs ih => intro t; simp only [List.map_cons, List.foldl_cons]; rw [ih]; rfl

theorem foldl_applyMutation_sheep (rows : List SheepRow) :
    ∀ t : Tables,
      (List.foldl applyMutation t (rows.map Mutation.sheep)).sheep
        = rows.foldl (fun l r => insertOrUpdateSheep r l) t.sheep := by
  induction rows with
  | nil => intro t; rfl
  | cons r rs ih => intro t; simp only [List.map_cons, List.foldl_cons]; rw [ih]; rfl

/-- The commit of shard-row writes followed by one log-row write. -/
theorem BufferWrite_rows (t : Tables) (rows : List SheepRow) (tx : TransactionRow) :
    BufferWrite t (rows.map Mutation.sheep ++ [Mutation.sheep_transaction tx])
      = { sheep := rows.foldl (fun l r => insertOrUpdateSheep r l) t.sheep,
          sheep_transaction := insertOrUpdateTransaction tx t.sheep_transaction } := by
  unfold BufferWrite
  rw [List.foldl_append]
  simp only [List.foldl_cons, List.foldl_nil, applyMutation]
  rw [foldl_applyMutation_sheep_transaction, foldl_applyMutation_sheep]

theorem doSave_of_found (shards shard now : Nat) (t : Tables) (msg : Message)
    (h : (readTransaction t.sheep_transaction msg).isSome = true) :
    doSave shards shard now t msg = (none, t) := by
  unfold doSave
  cases hr : readTransaction t.sheep_transaction msg with
  | none => simp [hr] at h
  | some r => rfl

theorem doSave_of_invalid (shards shard now : Nat) (t : Tables) (msg : Message)
    (h : readTransaction t.sheep_transaction msg = none)
    (hm : movedValue t shard msg = none) :
    doSave shards shard now t msg = (some (Err.spannerError Codes.InvalidArgument), t) := by
  unfold movedValue at hm
  unfold doSave
  simp only [h]
  rw [hm]

theorem doSave_of_applied (shards shard now : Nat) (t : Tables) (msg : Message) (move : Int)
    (h : readTransaction t.sheep_transaction msg = none)
    (hm : movedValue t shard msg = some move) :
    doSave shards shard now t msg = (none,
      { sheep := (writtenRows shards shard msg move).foldl (fun l r => insertOrUpdateSheep r l)
          t.sheep,
        sheep_transaction := insertOrUpdateTransaction
          ⟨msg.Keyspace, msg.Key, msg.Name, msg.UUID, now⟩ t.sheep_transaction }) := by
  unfold movedValue at hm
  unfold doSave
  simp only [h]
  rw [hm]
  simp only
  rw [← BufferWrite_rows]
  unfold writtenRows
  by_cases hs : msg.Operation = "SET"
  · simp [hs, List.map_map, Function.comp_def]
  · simp [hs]

theorem movedValue_isSome (t : Tables) (shard : Nat) (msg : Message) :
    (movedValue t shard msg).isSome = true ↔
      (msg.Operation = "INCR" ∨ msg.Operation = "DECR" ∨ msg.Operation = "SET") := by
  unfold movedValue
  by_cases h1 : msg.Operation = "INCR"
  · simp [h1]
  · by_cases h2 : msg.Operation = "DECR"
    · simp [h2]
    · by_cases h3 : msg.Operation = "SET"
      · simp [h3]
      · simp [h1, h2, h3]

theorem readTransaction_insertOrUpdate (msg : Message) (now : Nat) :
    ∀ l : List TransactionRow,
      (readTransaction (insertOrUpdateTransaction
        ⟨msg.Keyspace, msg.Key, msg.Name, msg.UUID, now⟩ l) msg).isSome = true := by
  intro l
  induction l with
  | nil => simp [readTransaction, insertOrUpdateTransaction]
  | cons r rs ih =>
    unfold insertOrUpdateTransaction
    by_cases hk : r.sameKey ⟨msg.Keyspace, msg.Key, msg.Name, msg.UUID, now⟩ = true
    · simp [hk, readTransaction]
    · simp only [hk, Bool.false_eq_true, if_false]
      unfold readTransaction at ih ⊢
      rw [List.find?_cons]
      split
      · rfl
      · exact ih

/-- A second `doSave` of the same message changes nothing, whatever shard and
clock it draws. -/
theorem doSave_doSave (shards s n s' n' : Nat) (t : Tables) (msg : Message) :
    (doSave shards s' n' (doSave shards s n t msg).2 msg).2 = (doSave shards s n t msg).2 := by
  cases hr : readTransaction t.sheep_transaction msg with
  | some r =>
    have hf : (readTransaction t.sheep_transaction msg).isSome = true := by simp [hr]
    simp [doSave_of_found _ _ _ t msg hf]
  | none =>
    cases hm : movedValue t s msg with
    | none =>
      have hm' : movedValue t s' msg = none := by
        have h1 := movedValue_isSome t s msg
        have h2 := movedValue_isSome t s' msg
        rw [hm] at h1
        cases hx : movedValue t s' msg with
        | none => rfl
        | some v =>
          rw [hx] at h2
          simp at h1 h2
          exact absurd h2 (by tauto)
      simp [doSave_of_invalid _ _ _ t msg hr hm, doSave_of_invalid _ _ _ t msg hr hm']
    | some move =>
      rw [doSave_of_applied _ _ _ t msg move hr hm]
      simp only
      rw [doSave_of_found]
      exact readTransaction_insertOrUpdate msg n t.sheep_transaction

theorem doSaveAll_same (shards : Nat) (op : Message) (s n : Nat) (ps : List (Nat × Nat)) :
    ∀ t : Tables,
      doSaveAll shards (doSave shards s n t op).2 (ps.map (fun p => Call.mk p.1 p.2 op))
        = (doSave shards s n t op).2 := by
  induction ps with
  | nil => intro t; rfl
  | cons p ps ih =>
    intro t
    simp only [doSaveAll, List.map_cons, List.foldl_cons]
    rw [doSave_doSave]
    exact ih t

/-! ### Rows and counters -/

theorem SheepRow.ofCounter_iff (msg : Message) (r : SheepRow) :
    r.ofCounter msg = true ↔ r.counter = counterOf msg := by
  simp [SheepRow.ofCounter, SheepRow.counter, counterOf, and_assoc]

theorem SheepRow.counter_of_sameKey (a b : SheepRow) (h : a.sameKey b = true) :
    a.counter = b.counter := by
  simp [SheepRow.sameKey] at h
  simp [SheepRow.counter, h.1.1.1, h.1.1.2, h.1.2]

theorem readTransaction_counter (l : List TransactionRow) (msg : Message)
    (h : (readTransaction l msg).isSome = true) :
    ∃ r ∈ l, r.counter = counterOf msg := by
  cases hr : readTransaction l msg with
  | none => simp [hr] at h
  | some r =>
    unfold readTransaction at hr
    have hm := List.mem_of_find?_eq_some hr
    have hp := List.find?_some hr
    simp at hp
    exact ⟨r, hm, by simp [TransactionRow.counter, counterOf, hp.1.1.1, hp.1.1.2, hp.1.2]⟩

theorem mem_insertOrUpdateSheep_self (row : SheepRow) :
    ∀ l : List SheepRow, row ∈ insertOrUpdateSheep row l := by
  intro l
  induction l with
  | nil => simp [insertOrUpdateSheep]
  | cons r rs ih =>
    unfold insertOrUpdateSheep
    split
    · simp
    · simp [ih]

theorem mem_insertOrUpdateSheep (row : SheepRow) :
    ∀ (l : List SheepRow) (r : SheepRow), r ∈ insertOrUpdateSheep row l → r = row ∨ r ∈ l := by
  intro l
  induction l with
  | nil => intro r h; simp [insertOrUpdateSheep] at h; exact Or.inl h
  | cons a as ih =>
    intro r h
    unfold insertOrUpdateSheep at h
    split at h
    · rcases List.mem_cons.1 h with h | h
      · exact Or.inl h
      · exact Or.inr (List.mem_cons_of_mem _ h)
    · rcases List.mem_cons.1 h with h | h
      · exact Or.inr (by simp [h])
      · rcases ih r h with h | h
        · exact Or.inl h
        · exact Or.inr (List.mem_cons_of_mem _ h)

theorem mem_insertOrUpdateTransaction (row : TransactionRow) :
    ∀ (l : List TransactionRow) (r : TransactionRow),
      r ∈ insertOrUpdateTransaction row l → r = row ∨ r ∈ l := by
  intro l
  induction l with
  | nil => intro r h; simp [insertOrUpdateTransaction] at h; exact Or.inl h
  | cons a as ih =>
    intro r h
    unfold insertOrUpdateTransaction at h
    split at h
    · rcases List.mem_cons.1 h with h | h
      · exact Or.inl h
      · exact Or.inr (List.mem_cons_of_mem _ h)
    · rcases List.mem_cons.1 h with h | h
      · exact Or.inr (by simp [h])
      · rcases ih r h with h | h
        · exact Or.inl h
        · exact Or.inr (List.mem_cons_of_mem _ h)

theorem counter_insertOrUpdateSheep (row : SheepRow) :
    ∀ l : List SheepRow, ∀ s ∈ l, ∃ s' ∈ insertOrUpdateSheep row l, s'.counter = s.counter := by
  intro l
  induction l with
  | nil => intro s hs; simp at hs
  | cons a as ih =>
    intro s hs
    unfold insertOrUpdateSheep
    by_cases hk : a.sameKey row = true
    · simp only [hk, if_true]
      rcases List.mem_cons.1 hs with h | h
      · exact ⟨row, by simp, by rw [h, SheepRow.counter_of_sameKey a row hk]⟩
      · exact ⟨s, List.mem_cons_of_mem _ h, rfl⟩
    · simp only [hk, if_false]
      rcases List.mem_cons.1 hs with h | h
      · exact ⟨a, by simp, by rw [h]⟩
      · obtain ⟨s', hs', hc⟩ := ih s h
        exact ⟨s', List.mem_cons_of_mem _ hs', hc⟩

theorem counter_foldl_keep (rows : List SheepRow) :
    ∀ l : List SheepRow, ∀ s ∈ l,
      ∃ s' ∈ rows.foldl (fun l r => insertOrUpdateSheep r l) l, s'.counter = s.counter := by
  induction rows with
  | nil => intro l s hs; exact ⟨s, hs, rfl⟩
  | cons a as ih =>
    intro l s hs
    obtain ⟨s1, hs1, hc1⟩ := counter_insertOrUpdateSheep a l s hs
    obtain ⟨s2, hs2, hc2⟩ := ih (insertOrUpdateSheep a l) s1 hs1
    exact ⟨s2, hs2, hc2.trans hc1⟩

theorem counter_foldl_written (rows : List SheepRow) :
    ∀ l : List SheepRow, ∀ r ∈ rows,
      ∃ s' ∈ rows.foldl (fun l r => insertOrUpdateSheep r l) l, s'.counter = r.counter := by
  induction rows with
  | nil => intro l r hr; simp at hr
  | cons a as ih =>
    intro l r hr
    rcases List.mem_cons.1 hr with h | h
    · subst h
      exact counter_foldl_keep as (insertOrUpdateSheep r l) r (mem_insertOrUpdateSheep_self r l)
    · exact ih (insertOrUpdateSheep a l) r h

theorem writtenRows_counter (shards shard : Nat) (msg : Message) (move : Int) :
    ∀ r ∈ writtenRows shards shard msg move, r.counter = counterOf msg := by
  intro r hr
  unfold writtenRows at hr
  split at hr
  · simp at hr
    obtain ⟨i, _, rfl⟩ := hr
    rfl
  · simp at hr
    subst hr
    rfl

theorem writtenRows_nonempty (shards shard : Nat) (msg : Message) (move : Int)
    (h : 1 ≤ shards) : ∃ r, r ∈ writtenRows shards shard msg move := by
  unfold writtenRows
  split
  · exact ⟨⟨msg.Keyspace, msg.Key, msg.Name, 0, move⟩,
      List.mem_map.2 ⟨0, List.mem_range.2 (by omega), rfl⟩⟩
  · exact ⟨_, List.mem_singleton.2 rfl⟩

/-! ### The log-coverage invariant -/

theorem doSave_logCovered (shards shard now : Nat) (h : 1 ≤ shards) (t : Tables)
    (msg : Message) (hc : logCovered t) :
    logCovered (doSave shards shard now t msg).2 := by
  cases hr : readTransaction t.sheep_transaction msg with
  | some r =>
    have hf : (readTransaction t.sheep_transaction msg).isSome = true := by simp [hr]
    rw [doSave_of_found _ _ _ t msg hf]; exact hc
  | none =>
    cases hm : movedValue t shard msg with
    | none => rw [doSave_of_invalid _ _ _ t msg hr hm]; exact hc
    | some move =>
      rw [doSave_of_applied _ _ _ t msg move hr hm]
      intro r hrm
      simp only at hrm ⊢
      rcases mem_insertOrUpdateTransaction _ _ r hrm with h1 | h1
      · obtain ⟨w, hw⟩ := writtenRows_nonempty shards shard msg move h
        obtain ⟨s', hs', hcs⟩ := counter_foldl_written _ t.sheep w hw
        refine ⟨s', hs', ?_⟩
        rw [hcs, writtenRows_counter shards shard msg move w hw, h1]
        rfl
      · obtain ⟨s, hs, hcs⟩ := hc r h1
        obtain ⟨s', hs', hcs'⟩ := counter_foldl_keep (writtenRows shards shard msg move) t.sheep s hs
        exact ⟨s', hs', hcs'.trans hcs⟩

theorem doSaveAll_logCovered (shards : Nat) (h : 1 ≤ shards) (calls : List Call) :
    ∀ t : Tables, logCovered t → logCovered (doSaveAll shards t calls) := by
  induction calls with
  | nil => intro t ht; exact ht
  | cons c cs ih =>
    intro t ht
    simp only [doSaveAll, List.foldl_cons]
    exact ih _ (doSave_logCovered shards c.shard c.now h t c.msg ht)

theorem doSave_logged (shards shard now : Nat) (t : Tables) (msg : Message)
    (hok : (doSave shards shard now t msg).1 = none) :
    ∃ r ∈ (doSave shards shard now t msg).2.sheep_transaction, r.counter = counterOf msg := by
  cases hr : readTransaction t.sheep_transaction msg with
  | some r =>
    have hf : (readTransaction t.sheep_transaction msg).isSome = true := by simp [hr]
    rw [doSave_of_found _ _ _ t msg hf]
    exact readTransaction_counter _ msg hf
  | none =>
    cases hm : movedValue t shard msg with
    | none => rw [doSave_of_invalid _ _ _ t msg hr hm] at hok; simp at hok
    | some move =>
      rw [doSave_of_applied _ _ _ t msg move hr hm]
      exact readTransaction_counter _ msg (readTransaction_insertOrUpdate msg now _)

theorem filter_ne_nil_of_row (rows : List SheepRow) (q : Message)
    (h : ∃ s ∈ rows, s.counter = counterOf q) :
    (rows.filter (fun r => r.ofCounter q)) ≠ [] := by
  obtain ⟨s, hs, hc⟩ := h
  intro hnil
  have : s ∈ rows.filter (fun r => r.ofCounter q) :=
    List.mem_filter.2 ⟨hs, (SheepRow.ofCounter_iff q s).2 hc⟩
  rw [hnil] at this
  simp at this

/-- With a shard row present and the sum inside `int64`, `Read` answers the
sum, whatever the database does on overflow. -/
theorem Read_of_row_inRange (o : SumOverflow) (t : Tables) (q : Message)
    (h : ∃ s ∈ t.sheep, s.counter = counterOf q) (hr : inInt64 (sumOf t.sheep q) = true) :
    Read o t q = (none, { q with Value := sumOf t.sheep q }) := by
  have hne := filter_ne_nil_of_row t.sheep q h
  unfold sumOf at hr
  unfold Read sumCount
  simp [hne, sumOf, hr]

/-- With a shard row present and the sum outside `int64`, `Read` answers what
the database makes of the overflow. -/
theorem Read_of_row_outOfRange (o : SumOverflow) (t : Tables) (q : Message)
    (h : ∃ s ∈ t.sheep, s.counter = counterOf q) (hr : inInt64 (sumOf t.sheep q) = false) :
    Read o t q = (match o with
      | SumOverflow.wraps => (none, { q with Value := wrapInt64 (sumOf t.sheep q) })
      | SumOverflow.fails => (some (Err.spannerError Codes.OutOfRange), q)) := by
  have hne := filter_ne_nil_of_row t.sheep q h
  unfold sumOf at hr
  unfold Read sumCount
  cases o <;> simp [hne, sumOf, hr]

theorem Read_of_no_row (o : SumOverflow) (t : Tables) (q : Message)
    (h : ∀ s ∈ t.sheep, s.counter ≠ counterOf q) :
    Read o t q = (some (Err.spannerError Codes.NotFound), q) := by
  have hnil : (t.sheep.filter (fun r => r.ofCounter q)) = [] := by
    apply List.filter_eq_nil_iff.2
    intro s hs hq
    exact h s hs ((SheepRow.ofCounter_iff q s).1 hq)
  unfold Read sumCount
  simp [hnil]

theorem countOp_le (op : String) (calls : List Call) : countOp op calls ≤ calls.length := by
  unfold countOp
  exact List.length_filter_le _ _

theorem inInt64_iff (x : Int) : inInt64 x = true ↔ (-2 ^ 63 ≤ x ∧ x < 2 ^ 63) := by
  simp [inInt64]

/-! ### The shard sum -/

theorem sumOf_congr (rows : List SheepRow) (m q : Message) (h : counterOf m = counterOf q) :
    sumOf rows m = sumOf rows q := by
  have hf : (fun r : SheepRow => r.ofCounter m) = (fun r : SheepRow => r.ofCounter q) := by
    funext r
    simp only [counterOf, Prod.mk.injEq] at h
    simp [SheepRow.ofCounter, h.1, h.2.1, h.2.2]
  unfold sumOf
  rw [hf]

theorem readTransaction_of_fresh (l : List TransactionRow) (msg : Message)
    (h : ∀ r ∈ l, r.UUID ≠ msg.UUID) : readTransaction l msg = none := by
  unfold readTransaction
  apply List.find?_eq_none.2
  intro r hr
  simp [h r hr]

theorem readSheep_bound (l : List SheepRow) (msg : Message) (shard : Nat) (b : Int)
    (h0 : 0 ≤ b) (hb : ∀ r ∈ l, -b ≤ r.Count ∧ r.Count ≤ b) :
    -b ≤ (readSheep l msg shard).getD 0 ∧ (readSheep l msg shard).getD 0 ≤ b := by
  unfold readSheep
  cases hf : l.find? (fun r => r.ofCounter msg && r.Shard = shard) with
  | none => simp; omega
  | some r =>
    have hm := List.mem_of_find?_eq_some hf
    simpa using hb r hm

theorem sumOf_insertOrUpdateSheep (msg : Message) (shard : Nat) (v : Int) :
    ∀ l : List SheepRow,
      sumOf (insertOrUpdateSheep ⟨msg.Keyspace, msg.Key, msg.Name, shard, v⟩ l) msg
        = sumOf l msg - (readSheep l msg shard).getD 0 + v := by
  intro l
  induction l with
  | nil => simp [insertOrUpdateSheep, sumOf, readSheep, SheepRow.ofCounter]
  | cons a as ih =>
    have hkey : a.sameKey ⟨msg.Keyspace, msg.Key, msg.Name, shard, v⟩
        = (a.ofCounter msg && decide (a.Shard = shard)) := by
      simp [SheepRow.sameKey, SheepRow.ofCounter]
    unfold insertOrUpdateSheep
    by_cases hk : (a.ofCounter msg && decide (a.Shard = shard)) = true
    · have hc : a.ofCounter msg = true := by
        simp only [Bool.and_eq_true] at hk
        exact hk.1
      simp only [hkey, hk, if_true]
      have hrow : SheepRow.ofCounter msg ⟨msg.Keyspace, msg.Key, msg.Name, shard, v⟩ = true := by
        simp [SheepRow.ofCounter]
      have hfind : readSheep (a :: as) msg shard = some a.Count := by
        unfold readSheep
        rw [List.find?_cons]
        simp [hk]
      rw [hfind]
      simp only [sumOf, List.filter_cons, hrow, hc, if_true, List.map_cons,
        List.sum_cons, Option.getD_some]
      omega
    · simp only [hkey, hk, if_false, Bool.false_eq_true]
      have hfind : readSheep (a :: as) msg shard = readSheep as msg shard := by
        unfold readSheep
        rw [List.find?_cons]
        simp only [Bool.not_eq_true] at hk
        simp [hk]
      rw [hfind]
      by_cases hc : a.ofCounter msg = true
      · have e1 : sumOf (a :: insertOrUpdateSheep ⟨msg.Keyspace, msg.Key, msg.Name, shard, v⟩ as) msg
            = a.Count
              + sumOf (insertOrUpdateSheep ⟨msg.Keyspace, msg.Key, msg.Name, shard, v⟩ as) msg := by
          simp [sumOf, List.filter_cons, hc]
        have e2 : sumOf (a :: as) msg = a.Count + sumOf as msg := by
          simp [sumOf, List.filter_cons, hc]
        rw [e1, e2, ih]
        omega
      · have e1 : sumOf (a :: insertOrUpdateSheep ⟨msg.Keyspace, msg.Key, msg.Name, shard, v⟩ as) msg
            = sumOf (insertOrUpdateSheep ⟨msg.Keyspace, msg.Key, msg.Name, shard, v⟩ as) msg := by
          simp [sumOf, List.filter_cons, hc]
        have e2 : sumOf (a :: as) msg = sumOf as msg := by
          simp [sumOf, List.filter_cons, hc]
        rw [e1, e2, ih]

/-- The change of the total that an operation asks for. -/
theorem doSave_step (shards shard now : Nat) (t : Tables) (msg : Message) (b : Int)
    (h0 : 0 ≤ b) (hb : ∀ r ∈ t.sheep, -b ≤ r.Count ∧ r.Count ≤ b)
    (hop : msg.Operation = "INCR" ∨ msg.Operation = "DECR")
    (hfresh : ∀ r ∈ t.sheep_transaction, r.UUID ≠ msg.UUID)
    (hlt : b + 1 < 2 ^ 63) :
    sumOf (doSave shards shard now t msg).2.sheep msg
        = sumOf t.sheep msg + (if msg.Operation = "INCR" then 1 else -1)
      ∧ (∀ r ∈ (doSave shards shard now t msg).2.sheep, -(b + 1) ≤ r.Count ∧ r.Count ≤ b + 1)
      ∧ (∀ r ∈ (doSave shards shard now t msg).2.sheep_transaction,
          r.UUID = msg.UUID ∨ r ∈ t.sheep_transaction)
      ∧ (∃ s ∈ (doSave shards shard now t msg).2.sheep, s.counter = counterOf msg) := by
  have hr := readTransaction_of_fresh t.sheep_transaction msg hfresh
  have hrb := readSheep_bound t.sheep msg shard b h0 hb
  have hnotset : ¬ msg.Operation = "SET" := by
    rcases hop with h | h <;> rw [h] <;> decide
  obtain ⟨move, hm, hmv⟩ : ∃ move, movedValue t shard msg = some move ∧
      move = (readSheep t.sheep msg shard).getD 0 + (if msg.Operation = "INCR" then 1 else -1) := by
    rcases hop with h | h
    · refine ⟨wrapInt64 ((readSheep t.sheep msg shard).getD 0 + 1), by simp [movedValue, h], ?_⟩
      simp only [h, if_true]
      exact wrapInt64_of_inRange _ (by omega) (by omega)
    · have hni : ¬ msg.Operation = "INCR" := by rw [h]; decide
      refine ⟨wrapInt64 ((readSheep t.sheep msg shard).getD 0 - 1),
        by simp [movedValue, h], ?_⟩
      simp only [hni, if_false]
      have := wrapInt64_of_inRange ((readSheep t.sheep msg shard).getD 0 - 1) (by omega) (by omega)
      rw [this]; omega
  rw [doSave_of_applied _ _ _ t msg move hr hm]
  have hw : writtenRows shards shard msg move = [⟨msg.Keyspace, msg.Key, msg.Name, shard, move⟩] := by
    simp [writtenRows, hnotset]
  simp only [hw, List.foldl_cons, List.foldl_nil]
  refine ⟨?_, ?_, ?_, ?_⟩
  · rw [sumOf_insertOrUpdateSheep, hmv]; omega
  · intro r hrm
    rcases mem_insertOrUpdateSheep _ _ r hrm with h | h
    · subst h
      simp only
      constructor
      · rw [hmv]; split <;> omega
      · rw [hmv]; split <;> omega
    · have := hb r h
      omega
  · intro r hrm
    rcases mem_insertOrUpdateTransaction _ _ r hrm with h | h
    · left; rw [h]
    · right; exact h
  · exact ⟨_, mem_insertOrUpdateSheep_self _ _, rfl⟩

theorem countOp_cons (op : String) (c : Call) (cs : List Call) :
    countOp op (c :: cs) = (if c.msg.Operation = op then 1 else 0) + countOp op cs := by
  unfold countOp
  by_cases h : c.msg.Operation = op
  · simp [List.filter_cons, h]; omega
  · simp [List.filter_cons, h]

theorem doSave_keeps_counter (shards shard now : Nat) (t : Tables) (msg : Message)
    (s : SheepRow) (hs : s ∈ t.sheep) :
    ∃ s' ∈ (doSave shards shard now t msg).2.sheep, s'.counter = s.counter := by
  cases hr : readTransaction t.sheep_transaction msg with
  | some r =>
    have hf : (readTransaction t.sheep_transaction msg).isSome = true := by simp [hr]
    rw [doSave_of_found _ _ _ t msg hf]; exact ⟨s, hs, rfl⟩
  | none =>
    cases hm : movedValue t shard msg with
    | none => rw [doSave_of_invalid _ _ _ t msg hr hm]; exact ⟨s, hs, rfl⟩
    | some move =>
      rw [doSave_of_applied _ _ _ t msg move hr hm]
      exact counter_foldl_keep _ t.sheep s hs

theorem doSaveAll_keeps_counter (shards : Nat) (calls : List Call) :
    ∀ (t : Tables) (s : SheepRow), s ∈ t.sheep →
      ∃ s' ∈ (doSaveAll shards t calls).sheep, s'.counter = s.counter := by
  induction calls with
  | nil => intro t s hs; exact ⟨s, hs, rfl⟩
  | cons c cs ih =>
    intro t s hs
    obtain ⟨s1, hs1, hc1⟩ := doSave_keeps_counter shards c.shard c.now t c.msg s hs
    obtain ⟨s2, hs2, hc2⟩ := ih _ s1 hs1
    exact ⟨s2, hs2, hc2.trans hc1⟩

theorem doSaveAll_sum (shards : Nat) (q : Message) :
    ∀ (calls : List Call) (t : Tables) (b : Int), 0 ≤ b →
      (∀ r ∈ t.sheep, -b ≤ r.Count ∧ r.Count ≤ b) →
      (∀ c ∈ calls, counterOf c.msg = counterOf q) →
      (∀ c ∈ calls, c.msg.Operation = "INCR" ∨ c.msg.Operation = "DECR") →
      (calls.map (fun c => c.msg.UUID)).Nodup →
      (∀ r ∈ t.sheep_transaction, ∀ c ∈ calls, r.UUID ≠ c.msg.UUID) →
      b + (calls.length : Int) < 2 ^ 63 →
      sumOf (doSaveAll shards t calls).sheep q
          = sumOf t.sheep q + (countOp "INCR" calls : Int) - (countOp "DECR" calls : Int)
        ∧ (calls ≠ [] → ∃ s ∈ (doSaveAll shards t calls).sheep, s.counter = counterOf q) := by
  intro calls
  induction calls with
  | nil =>
    intro t b _ _ _ _ _ _ _
    simp [doSaveAll, countOp]
  | cons c cs ih =>
    intro t b h0 hb hq hop hu hfresh hlen
    have hlen' : b + 1 + (cs.length : Int) < 2 ^ 63 := by
      simp only [List.length_cons, Nat.cast_add, Nat.cast_one] at hlen
      omega
    have hcq : counterOf c.msg = counterOf q := hq c (List.mem_cons_self _ _)
    have hcop := hop c (List.mem_cons_self _ _)
    obtain ⟨hsum, hb', htx, hex⟩ := doSave_step shards c.shard c.now t c.msg b h0 hb hcop
      (fun r hr => hfresh r hr c (List.mem_cons_self _ _)) (by omega)
    have hu' := List.nodup_cons.1 hu
    obtain ⟨ihsum, _⟩ := ih (doSave shards c.shard c.now t c.msg).2 (b + 1) (by omega) hb'
      (fun d hd => hq d (List.mem_cons_of_mem _ hd))
      (fun d hd => hop d (List.mem_cons_of_mem _ hd))
      hu'.2
      (by
        intro r hr d hd
        rcases htx r hr with h | h
        · rw [h]
          intro heq
          exact hu'.1 (List.mem_map.2 ⟨d, hd, heq.symm⟩)
        · exact hfresh r h d (List.mem_cons_of_mem _ hd))
      hlen'
    constructor
    · show sumOf (doSaveAll shards (doSave shards c.shard c.now t c.msg).2 cs).sheep q = _
      rw [ihsum, ← sumOf_congr _ c.msg q hcq, hsum, sumOf_congr _ c.msg q hcq,
        countOp_cons "INCR", countOp_cons "DECR"]
      rcases hcop with h | h
      · simp [h]; omega
      · simp [h]; omega
    · intro _
      obtain ⟨s, hs, hc⟩ := hex
      obtain ⟨s', hs', hc'⟩ := doSaveAll_keeps_counter shards cs _ s hs
      exact ⟨s', hs', by rw [hc', hc, hcq]⟩

end Spanner

/-! ## The claims -/

/-- C1. `Save` is idempotent per record. In the mock store, for every store
state, record and `k`, the store after `k + 1` calls `Save(op)` is the store
after one call, and `Read` of the record's counter answers the same. In the
Spanner store, for every shard count, table state and record, and whatever
shard and clock each call draws, the tables after one or more `doSave(op)`
calls are the tables after the first call, and `Read` answers the same,
whatever the database does when a sum overflows. -/
theorem save_idempotent :
    (∀ (db : Mock.MockDatabase) (op : Message) (k : Nat),
        Mock.saveTimes db op (k + 1) = (Mock.Save db op).2 ∧
          Mock.Read (Mock.saveTimes db op (k + 1)) op = Mock.Read (Mock.Save db op).2 op) ∧
    (∀ (o : Spanner.SumOverflow) (shards : Nat) (t : Spanner.Tables) (op : Message)
        (p : Nat × Nat) (ps : List (Nat × Nat)),
        Spanner.doSaveAll shards t ((p :: ps).map (fun c => Spanner.Call.mk c.1 c.2 op))
            = (Spanner.doSave shards p.1 p.2 t op).2 ∧
          Spanner.Read o
            (Spanner.doSaveAll shards t ((p :: ps).map (fun c => Spanner.Call.mk c.1 c.2 op))) op
            = Spanner.Read o (Spanner.doSave shards p.1 p.2 t op).2 op) := by
  refine ⟨fun db op k => ?_, fun o shards t op p ps => ?_⟩
  · rw [Mock.saveTimes_succ]
    exact ⟨rfl, rfl⟩
  · have h : Spanner.doSaveAll shards t ((p :: ps).map (fun c => Spanner.Call.mk c.1 c.2 op))
        = (Spanner.doSave shards p.1 p.2 t op).2 := by
      simp only [Spanner.doSaveAll, List.map_cons, List.foldl_cons]
      exact Spanner.doSaveAll_same shards op p.1 p.2 ps t
    rw [h]
    exact ⟨rfl, rfl⟩

/-- C2, the code at the failing input. With two shards and empty tables,
`doSave` of `SET 5` writes 5 into shard 0 and into shard 1, and `Read` then
answers 10 and not 5, on either kind of database. -/
theorem set_writes_value_to_every_shard :
    (Spanner.doSave 2 1 7 Spanner.Tables.empty ⟨"t", "t", "t", "SET", "b", 5⟩).2.sheep
        = [⟨"t", "t", "t", 0, 5⟩, ⟨"t", "t", "t", 1, 5⟩] ∧
      Spanner.Read Spanner.SumOverflow.wraps
          (Spanner.doSave 2 1 7 Spanner.Tables.empty ⟨"t", "t", "t", "SET", "b", 5⟩).2
          ⟨"t", "t", "t", "", "", 0⟩
        = (none, ⟨"t", "t", "t", "", "", 10⟩) ∧
      Spanner.Read Spanner.SumOverflow.fails
          (Spanner.doSave 2 1 7 Spanner.Tables.empty ⟨"t", "t", "t", "SET", "b", 5⟩).2
          ⟨"t", "t", "t", "", "", 0⟩
        = (none, ⟨"t", "t", "t", "", "", 10⟩) := by
  refine ⟨rfl, rfl, rfl⟩

/-- C3 as stated fails on the empty sequence: with no operation applied the
counter has no shard row, and `Read` answers `NotFound` instead of the
value 0, on either kind of database. -/
theorem shard_sum_empty_sequence_not_found :
    Spanner.Read Spanner.SumOverflow.wraps (Spanner.doSaveAll 1 Spanner.Tables.empty [])
          ⟨"t", "t", "t", "", "", 7⟩
        = (some (Err.spannerError Codes.NotFound), ⟨"t", "t", "t", "", "", 7⟩) ∧
      Spanner.Read Spanner.SumOverflow.wraps (Spanner.doSaveAll 1 Spanner.Tables.empty [])
          ⟨"t", "t", "t", "", "", 7⟩
        ≠ (none, ⟨"t", "t", "t", "", "", (Spanner.countOp "INCR" [] : Int)
            - (Spanner.countOp "DECR" [] : Int)⟩) ∧
      Spanner.Read Spanner.SumOverflow.fails (Spanner.doSaveAll 1 Spanner.Tables.empty [])
          ⟨"t", "t", "t", "", "", 7⟩
        = (some (Err.spannerError Codes.NotFound), ⟨"t", "t", "t", "", "", 7⟩) ∧
      Spanner.Read Spanner.SumOverflow.fails (Spanner.doSaveAll 1 Spanner.Tables.empty [])
          ⟨"t", "t", "t", "", "", 7⟩
        ≠ (none, ⟨"t", "t", "t", "", "", (Spanner.countOp "INCR" [] : Int)
            - (Spanner.countOp "DECR" [] : Int)⟩) := by
  refine ⟨rfl, by decide, rfl, by decide⟩

/-- C3, amended. For every shard count and every non-empty sequence of `INCR`
and `DECR` records on one counter with pairwise distinct UUIDs, shorter than
`2 ^ 63` (so that no `int64` overflows), applied by `doSave` to empty tables
with any shard drawn by each call, `Read` on that counter succeeds and answers
the number of `INCR`s minus the number of `DECR`s, whatever the database does
when a sum overflows. -/
theorem shard_sum_correct (o : Spanner.SumOverflow) (shards : Nat) (q : Message)
    (calls : List Spanner.Call)
    (hne : calls ≠ [])
    (hq : ∀ c ∈ calls, c.msg.Keyspace = q.Keyspace ∧ c.msg.Key = q.Key ∧ c.msg.Name = q.Name)
    (hop : ∀ c ∈ calls, c.msg.Operation = "INCR" ∨ c.msg.Operation = "DECR")
    (hu : (calls.map (fun c => c.msg.UUID)).Nodup)
    (hlen : calls.length < 2 ^ 63) :
    Spanner.Read o (Spanner.doSaveAll shards Spanner.Tables.empty calls) q
      = (none, { q with Value := (Spanner.countOp "INCR" calls : Int)
          - (Spanner.countOp "DECR" calls : Int) }) := by
  have hlen' : (0 : Int) + (calls.length : Int) < 2 ^ 63 := by
    have : ((calls.length : Nat) : Int) < ((2 ^ 63 : Nat) : Int) := Int.ofNat_lt.2 hlen
    simpa using this
  obtain ⟨hsum, hex⟩ := Spanner.doSaveAll_sum shards q calls Spanner.Tables.empty 0 (le_refl 0)
    (by intro r hr; simp [Spanner.Tables.empty] at hr)
    (by
      intro c hc
      obtain ⟨h1, h2, h3⟩ := hq c hc
      simp [Spanner.counterOf, h1, h2, h3])
    hop hu
    (by intro r hr; simp [Spanner.Tables.empty] at hr)
    hlen'
  have hval : Spanner.sumOf (Spanner.doSaveAll shards Spanner.Tables.empty calls).sheep q
      = (Spanner.countOp "INCR" calls : Int) - (Spanner.countOp "DECR" calls : Int) := by
    rw [hsum]
    simp [Spanner.sumOf, Spanner.Tables.empty]
  have hi := Spanner.countOp_le "INCR" calls
  have hd := Spanner.countOp_le "DECR" calls
  have hr : inInt64 (Spanner.sumOf (Spanner.doSaveAll shards Spanner.Tables.empty calls).sheep q)
      = true := by
    rw [hval]
    apply (Spanner.inInt64_iff _).2
    have h2 : (calls.length : Int) < 2 ^ 63 := by simpa using hlen'
    omega
  rw [Spanner.Read_of_row_inRange o _ q (hex hne) hr, hval]

/-- A run of `shard_sum_correct`: two `INCR`s and one `DECR` spread over two
shards read as 1. -/
theorem shard_sum_correct_witness :
    Spanner.Read Spanner.SumOverflow.fails (Spanner.doSaveAll 2 Spanner.Tables.empty
        [⟨0, 1, ⟨"t", "t", "t", "INCR", "a", 0⟩⟩, ⟨1, 2, ⟨"t", "t", "t", "INCR", "b", 0⟩⟩,
          ⟨1, 3, ⟨"t", "t", "t", "DECR", "c", 0⟩⟩])
        ⟨"t", "t", "t", "", "", 0⟩
      = (none, ⟨"t", "t", "t", "", "", 1⟩) :=
  shard_sum_correct Spanner.SumOverflow.fails 2 ⟨"t", "t", "t", "", "", 0⟩
    [⟨0, 1, ⟨"t", "t", "t", "INCR", "a", 0⟩⟩, ⟨1, 2, ⟨"t", "t", "t", "INCR", "b", 0⟩⟩,
      ⟨1, 3, ⟨"t", "t", "t", "DECR", "c", 0⟩⟩]
    (by decide) (by decide) (by decide) (by decide) (by decide)

/-- C4, the code at the failing input. On a fresh mock store, `Save` of a
record with the unknown operation `BOGUS` and UUID `a` returns the error
`invalid op` and leaves counts and existence flags alone, but it has already
recorded the UUID in the dedup log; a retry of the same record is then taken
for a duplicate and answers success with nothing applied. -/
theorem mock_invalid_op_marks_log :
    (Mock.Save (Mock.NewMockDatabase false) ⟨"t", "t", "t", "BOGUS", "a", 0⟩).1
        = some (Err.errorsNew "invalid op") ∧
      (Mock.Save (Mock.NewMockDatabase false) ⟨"t", "t", "t", "BOGUS", "a", 0⟩).2.db
        = (Mock.NewMockDatabase false).db ∧
      (Mock.Save (Mock.NewMockDatabase false) ⟨"t", "t", "t", "BOGUS", "a", 0⟩).2.exists_
        = (Mock.NewMockDatabase false).exists_ ∧
      GoMap.get false (Mock.NewMockDatabase false).log "a" = false ∧
      GoMap.get false
        (Mock.Save (Mock.NewMockDatabase false) ⟨"t", "t", "t", "BOGUS", "a", 0⟩).2.log "a"
        = true ∧
      (Mock.Save (Mock.Save (Mock.NewMockDatabase false) ⟨"t", "t", "t", "BOGUS", "a", 0⟩).2
        ⟨"t", "t", "t", "BOGUS", "a", 0⟩).1 = none := by
  refine ⟨rfl, rfl, rfl, rfl, rfl, rfl⟩

/-- C5, the code at the failing input. After `INCR` with UUID `u` on counter
`(a, a, a)`, an `INCR` with the same UUID on the different counter `(b, b, b)`
is taken for a duplicate: `Save` answers success, nothing is applied, and
`Read` of `(b, b, b)` answers `NotFound`. -/
theorem mock_dedup_ignores_counter :
    (Mock.Save (Mock.Save (Mock.NewMockDatabase false) ⟨"a", "a", "a", "INCR", "u", 0⟩).2
        ⟨"b", "b", "b", "INCR", "u", 0⟩).1 = none ∧
      Mock.Read
        (Mock.Save (Mock.Save (Mock.NewMockDatabase false) ⟨"a", "a", "a", "INCR", "u", 0⟩).2
          ⟨"b", "b", "b", "INCR", "u", 0⟩).2 ⟨"b", "b", "b", "INCR", "u", 0⟩
        = (some (Err.spannerError Codes.NotFound), ⟨"b", "b", "b", "INCR", "u", 0⟩) ∧
      Mock.Read
        (Mock.Save (Mock.Save (Mock.NewMockDatabase false) ⟨"a", "a", "a", "SET", "u", 4⟩).2
          ⟨"b", "b", "b", "SET", "u", 9⟩).2 ⟨"b", "b", "b", "SET", "u", 9⟩
        = (some (Err.spannerError Codes.NotFound), ⟨"b", "b", "b", "SET", "u", 9⟩) := by
  refine ⟨rfl, rfl, rfl⟩

/-- C6 as stated fails. The store keys a counter by the concatenation
`Keyspace + Key + Name`: after one `INCR` on `(a, b, c)`, `Read` of the
never-written counter `(ab, c, "")` succeeds with value 1. And a store created
with `forceError` set answers `Internal`, not `NotFound`. -/
theorem mock_read_key_collision :
    (("a", "b", "c") ≠ (("ab", "c", "") : String × String × String)) ∧
      Mock.Read (Mock.saveAll (Mock.NewMockDatabase false) [⟨"a", "b", "c", "INCR", "1", 0⟩])
          ⟨"ab", "c", "", "", "", 0⟩
        = (none, ⟨"ab", "c", "", "", "", 1⟩) ∧
      Mock.Read (Mock.saveAll (Mock.NewMockDatabase true) []) ⟨"test", "test", "test", "", "", 0⟩
        = (some (Err.spannerError Codes.Internal), ⟨"test", "test", "test", "", "", 0⟩) := by
  refine ⟨by decide, rfl, rfl⟩

/-- C6, amended. Starting from `NewMockDatabase(false)`, after any finite
sequence of `Save` calls none of which has the concatenated key
`Keyspace + Key + Name` of the record `q`, `Read` of `q` returns a `NotFound`
error and leaves the record, its `Value` included, unchanged. -/
theorem mock_read_never_written (ms : List Message) (q : Message)
    (h : ∀ m ∈ ms, m.Keyspace ++ m.Key ++ m.Name ≠ q.Keyspace ++ q.Key ++ q.Name) :
    Mock.Read (Mock.saveAll (Mock.NewMockDatabase false) ms) q
      = (some (Err.spannerError Codes.NotFound), q) := by
  have hf := Mock.saveAll_ForceError ms (Mock.NewMockDatabase false)
  have he := (Mock.saveAll_other_key (Mock.key q) ms (Mock.NewMockDatabase false) h).1
  have hf' : (Mock.saveAll (Mock.NewMockDatabase false) ms).ForceError = false := by
    rw [hf]; rfl
  have he' : GoMap.get false (Mock.saveAll (Mock.NewMockDatabase false) ms).exists_ (Mock.key q)
      = false := by
    unfold GoMap.get
    rw [he]; rfl
  simp [Mock.Read, hf', he']

/-- A run of `mock_read_never_written`: the identity of the test
`TestGetWithNotFound` after writes to two other counters. -/
theorem mock_read_never_written_witness :
    Mock.Read (Mock.saveAll (Mock.NewMockDatabase false)
        [⟨"x", "y", "z", "INCR", "1", 0⟩, ⟨"test", "test", "other", "SET", "2", 5⟩])
        ⟨"test", "test", "test", "", "", 0⟩
      = (some (Err.spannerError Codes.NotFound), ⟨"test", "test", "test", "", "", 0⟩) :=
  mock_read_never_written
    [⟨"x", "y", "z", "INCR", "1", 0⟩, ⟨"test", "test", "other", "SET", "2", 5⟩]
    ⟨"test", "test", "test", "", "", 0⟩ (by decide)

/-- C7 as stated fails on a database whose `SUM` fails on overflow. With two
shards and empty tables, `doSave` of `SET 2 ^ 62` succeeds and leaves `2 ^ 62`
in both shards; the sum `2 ^ 63` is no `int64`, and `Read` on the counter
returns the range error of the query and no value. -/
theorem read_after_save_sum_overflow :
    (Spanner.doSave 2 0 1 (Spanner.doSaveAll 2 Spanner.Tables.empty [])
        ⟨"t", "t", "t", "SET", "a", 4611686018427387904⟩).1 = none ∧
      (Spanner.doSave 2 0 1 (Spanner.doSaveAll 2 Spanner.Tables.empty [])
        ⟨"t", "t", "t", "SET", "a", 4611686018427387904⟩).2.sheep
        = [⟨"t", "t", "t", 0, 4611686018427387904⟩, ⟨"t", "t", "t", 1, 4611686018427387904⟩] ∧
      inInt64 4611686018427387904 = true ∧
      Spanner.Read Spanner.SumOverflow.fails
          (Spanner.doSave 2 0 1 (Spanner.doSaveAll 2 Spanner.Tables.empty [])
            ⟨"t", "t", "t", "SET", "a", 4611686018427387904⟩).2
          ⟨"t", "t", "t", "", "", 0⟩
        = (some (Err.spannerError Codes.OutOfRange), ⟨"t", "t", "t", "", "", 0⟩) := by
  refine ⟨rfl, rfl, by decide, by decide⟩

/-- C7, amended. For every shard count of at least 1 and every table state
reached from empty tables by a sequence of `doSave` calls with any shards
drawn, every transaction-log row has a shard row of the same counter; and when
`doSave(op)` returns success on such a state (applied or recognised as a
duplicate), the tables then hold a shard row of the counter of `op`, and `Read`
on that counter does not fail with `NotFound`: it returns the sum of the
counter's shard counts when that sum is an `int64`, and otherwise what the
database makes of the overflow, the wrapped sum as a value or the range
error of the query. -/
theorem read_after_save_found (o : Spanner.SumOverflow) (shards : Nat) (h : 1 ≤ shards)
    (calls : List Spanner.Call) (c : Spanner.Call) (q : Message) :
    Spanner.logCovered (Spanner.doSaveAll shards Spanner.Tables.empty calls) ∧
      ((Spanner.doSave shards c.shard c.now
          (Spanner.doSaveAll shards Spanner.Tables.empty calls) c.msg).1 = none →
        (∃ s ∈ (Spanner.doSave shards c.shard c.now
            (Spanner.doSaveAll shards Spanner.Tables.empty calls) c.msg).2.sheep,
          s.Keyspace = c.msg.Keyspace ∧ s.Key = c.msg.Key ∧ s.Name = c.msg.Name) ∧
        (Spanner.Read o (Spanner.doSave shards c.shard c.now
              (Spanner.doSaveAll shards Spanner.Tables.empty calls) c.msg).2
            { q with Keyspace := c.msg.Keyspace, Key := c.msg.Key, Name := c.msg.Name }).1
          ≠ some (Err.spannerError Codes.NotFound) ∧
        (Spanner.Read o (Spanner.doSave shards c.shard c.now
              (Spanner.doSaveAll shards Spanner.Tables.empty calls) c.msg).2
            { q with Keyspace := c.msg.Keyspace, Key := c.msg.Key, Name := c.msg.Name }
          = (if inInt64 (Spanner.sumOf (Spanner.doSave shards c.shard c.now
                (Spanner.doSaveAll shards Spanner.Tables.empty calls) c.msg).2.sheep c.msg)
            then (none, { q with Keyspace := c.msg.Keyspace, Key := c.msg.Key,
                                 Name := c.msg.Name,
                                 Value := Spanner.sumOf (Spanner.doSave shards c.shard c.now
                                   (Spanner.doSaveAll shards Spanner.Tables.empty calls)
                                   c.msg).2.sheep c.msg })
            else
              match o with
              | Spanner.SumOverflow.wraps =>
                (none, { q with Keyspace := c.msg.Keyspace, Key := c.msg.Key,
                                Name := c.msg.Name,
                                Value := wrapInt64 (Spanner.sumOf (Spanner.doSave shards c.shard
                                  c.now (Spanner.doSaveAll shards Spanner.Tables.empty calls)
                                  c.msg).2.sheep c.msg) })
              | Spanner.SumOverflow.fails =>
                (some (Err.spannerError Codes.OutOfRange),
                  { q with Keyspace := c.msg.Keyspace, Key := c.msg.Key,
                           Name := c.msg.Name })))) := by
  have hinv : Spanner.logCovered (Spanner.doSaveAll shards Spanner.Tables.empty calls) :=
    Spanner.doSaveAll_logCovered shards h calls Spanner.Tables.empty
      (by intro r hr; simp [Spanner.Tables.empty] at hr)
  refine ⟨hinv, fun hok => ?_⟩
  have hinv' := Spanner.doSave_logCovered shards c.shard c.now h _ c.msg hinv
  obtain ⟨r, hr, hrc⟩ := Spanner.doSave_logged shards c.shard c.now _ c.msg hok
  obtain ⟨s, hs, hsc⟩ := hinv' r hr
  have hc : s.counter = Spanner.counterOf c.msg := hsc.trans hrc
  have hcq : Spanner.counterOf
      { q with Keyspace := c.msg.Keyspace, Key := c.msg.Key, Name := c.msg.Name }
      = Spanner.counterOf c.msg := rfl
  have hsum := Spanner.sumOf_congr (Spanner.doSave shards c.shard c.now
    (Spanner.doSaveAll shards Spanner.Tables.empty calls) c.msg).2.sheep _ _ hcq
  have hrow : ∃ s ∈ (Spanner.doSave shards c.shard c.now
      (Spanner.doSaveAll shards Spanner.Tables.empty calls) c.msg).2.sheep,
      s.counter = Spanner.counterOf
        { q with Keyspace := c.msg.Keyspace, Key := c.msg.Key, Name := c.msg.Name } :=
    ⟨s, hs, hc.trans hcq.symm⟩
  have hread : Spanner.Read o (Spanner.doSave shards c.shard c.now
        (Spanner.doSaveAll shards Spanner.Tables.empty calls) c.msg).2
        { q with Keyspace := c.msg.Keyspace, Key := c.msg.Key, Name := c.msg.Name }
      = (if inInt64 (Spanner.sumOf (Spanner.doSave shards c.shard c.now
            (Spanner.doSaveAll shards Spanner.Tables.empty calls) c.msg).2.sheep c.msg)
        then (none, { q with Keyspace := c.msg.Keyspace, Key := c.msg.Key,
                             Name := c.msg.Name,
                             Value := Spanner.sumOf (Spanner.doSave shards c.shard c.now
                               (Spanner.doSaveAll shards Spanner.Tables.empty calls)
                               c.msg).2.sheep c.msg })
        else
          match o with
          | Spanner.SumOverflow.wraps =>
            (none, { q with Keyspace := c.msg.Keyspace, Key := c.msg.Key,
                            Name := c.msg.Name,
                            Value := wrapInt64 (Spanner.sumOf (Spanner.doSave shards c.shard
                              c.now (Spanner.doSaveAll shards Spanner.Tables.empty calls)
                              c.msg).2.sheep c.msg) })
          | Spanner.SumOverflow.fails =>
            (some (Err.spannerError Codes.OutOfRange),
              { q with Keyspace := c.msg.Keyspace, Key := c.msg.Key,
                       Name := c.msg.Name })) := by
    rw [← hsum]
    by_cases hin : inInt64 (Spanner.sumOf (Spanner.doSave shards c.shard c.now
        (Spanner.doSaveAll shards Spanner.Tables.empty calls) c.msg).2.sheep
        { q with Keyspace := c.msg.Keyspace, Key := c.msg.Key, Name := c.msg.Name }) = true
    · rw [Spanner.Read_of_row_inRange o _ _ hrow hin]
      simp [hin]
    · have hin' := Bool.eq_false_iff.2 hin
      rw [Spanner.Read_of_row_outOfRange o _ _ hrow hin']
      simp only [hin']
      cases o <;> rfl
  refine ⟨⟨s, hs, ?_⟩, ?_, hread⟩
  · simpa [Spanner.SheepRow.counter, Spanner.counterOf] using hc
  · rw [hread]
    split
    · simp
    · cases o <;> simp

/-- A run of `read_after_save_found`: a redelivered `INCR` on two shards reads
as 1 on a database that fails on overflow; and after `SET 2 ^ 62` on two
shards a database that wraps answers the value `-2 ^ 63`. -/
theorem read_after_save_found_witness :
    (1 ≤ 2) ∧
      (Spanner.doSave 2 0 9
        (Spanner.doSaveAll 2 Spanner.Tables.empty [⟨1, 1, ⟨"t", "t", "t", "INCR", "a", 0⟩⟩])
        ⟨"t", "t", "t", "INCR", "a", 0⟩).1 = none ∧
      (Spanner.Read Spanner.SumOverflow.fails (Spanner.doSave 2 0 9
          (Spanner.doSaveAll 2 Spanner.Tables.empty [⟨1, 1, ⟨"t", "t", "t", "INCR", "a", 0⟩⟩])
          ⟨"t", "t", "t", "INCR", "a", 0⟩).2 ⟨"t", "t", "t", "", "", 0⟩).1
        ≠ some (Err.spannerError Codes.NotFound) ∧
      Spanner.Read Spanner.SumOverflow.fails (Spanner.doSave 2 0 9
          (Spanner.doSaveAll 2 Spanner.Tables.empty [⟨1, 1, ⟨"t", "t", "t", "INCR", "a", 0⟩⟩])
          ⟨"t", "t", "t", "INCR", "a", 0⟩).2 ⟨"t", "t", "t", "", "", 0⟩
        = (none, ⟨"t", "t", "t", "", "", 1⟩) ∧
      (Spanner.doSave 2 0 1 (Spanner.doSaveAll 2 Spanner.Tables.empty [])
        ⟨"t", "t", "t", "SET", "a", 4611686018427387904⟩).1 = none ∧
      Spanner.Read Spanner.SumOverflow.wraps
          (Spanner.doSave 2 0 1 (Spanner.doSaveAll 2 Spanner.Tables.empty [])
            ⟨"t", "t", "t", "SET", "a", 4611686018427387904⟩).2 ⟨"t", "t", "t", "", "", 0⟩
        = (none, ⟨"t", "t", "t", "", "", -9223372036854775808⟩) :=
  ⟨by decide, by decide,
    ((read_after_save_found Spanner.SumOverflow.fails 2 (by decide)
      [⟨1, 1, ⟨"t", "t", "t", "INCR", "a", 0⟩⟩]
      ⟨0, 9, ⟨"t", "t", "t", "INCR", "a", 0⟩⟩ ⟨"t", "t", "t", "", "", 0⟩).2 (by decide)).2.1,
    ((read_after_save_found Spanner.SumOverflow.fails 2 (by decide)
      [⟨1, 1, ⟨"t", "t", "t", "INCR", "a", 0⟩⟩]
      ⟨0, 9, ⟨"t", "t", "t", "INCR", "a", 0⟩⟩ ⟨"t", "t", "t", "", "", 0⟩).2 (by decide)).2.2,
    by decide,
    ((read_after_save_found Spanner.SumOverflow.wraps 2 (by decide) []
      ⟨0, 1, ⟨"t", "t", "t", "SET", "a", 4611686018427387904⟩⟩
      ⟨"t", "t", "t", "", "", 0⟩).2 (by decide)).2.2⟩

/-- C8. For every non-empty queue `m :: rest` of a mock queue that delivers
(`ForceError` false), every handler and every handler state, one delivery step
of `Read` returns no error and hands `m`, the oldest record, to the handler;
the queue becomes `rest` when the handler returns true and `rest ++ [m]` when
it returns false, and in that case the delivery step that follows the next
`rest.length` steps hands the same record `m` to the handler again. The
handler installed by `StartWork` returns false exactly when the store's `Save`
returns an error. -/
theorem mock_queue_retry {σ : Type} (m : Message) (rest : List Message)
    (fn : σ → Message → Bool × σ) (s : σ) :
    (Mock.MockQueue.Read ⟨false, m :: rest⟩ fn s).1 = none ∧
      (Mock.MockQueue.Read ⟨false, m :: rest⟩ fn s).2.1 = some m ∧
      (Mock.MockQueue.Read ⟨false, m :: rest⟩ fn s).2.2.2 = (fn s m).2 ∧
      (Mock.MockQueue.Read ⟨false, m :: rest⟩ fn s).2.2.1.queue
        = (if (fn s m).1 then rest else rest ++ [m]) ∧
      ((fn s m).1 = false →
        (Mock.MockQueue.Read
          (Mock.MockQueue.readTimes fn rest.length
            (Mock.MockQueue.Read ⟨false, m :: rest⟩ fn s).2.2.1
            (Mock.MockQueue.Read ⟨false, m :: rest⟩ fn s).2.2.2).1
          fn
          (Mock.MockQueue.readTimes fn rest.length
            (Mock.MockQueue.Read ⟨false, m :: rest⟩ fn s).2.2.1
            (Mock.MockQueue.Read ⟨false, m :: rest⟩ fn s).2.2.2).2).2.1 = some m) ∧
      (∀ (τ : Type) (save : τ → Message → Option Err × τ) (db : τ) (msg : Message),
        ((Mock.startWorkHandler save db msg).1 = false ↔ (save db msg).1 ≠ none) ∧
          (Mock.startWorkHandler save db msg).2 = (save db msg).2) := by
  obtain ⟨h1, h2, h3, h4⟩ :=
    Mock.MockQueue.Read_cons ⟨false, m :: rest⟩ fn s m rest rfl rfl
  refine ⟨h1, h2, h3, h4, fun hfalse => ?_, fun τ save db msg => ?_⟩
  · have hq : (Mock.MockQueue.Read ⟨false, m :: rest⟩ fn s).2.2.1.queue = rest ++ m :: [] := by
      rw [h4]; simp [hfalse]
    have hf : (Mock.MockQueue.Read ⟨false, m :: rest⟩ fn s).2.2.1.ForceError = false := by
      rw [Mock.MockQueue.Read_ForceError]
    obtain ⟨hf', suf, hsuf⟩ := Mock.MockQueue.readTimes_reaches fn m rest []
      (Mock.MockQueue.Read ⟨false, m :: rest⟩ fn s).2.2.1
      (Mock.MockQueue.Read ⟨false, m :: rest⟩ fn s).2.2.2 hf hq
    exact (Mock.MockQueue.Read_cons _ fn _ m suf hf' hsuf).2.1
  · unfold Mock.startWorkHandler
    cases h : (save db msg).1 <;> simp [h]

/-- A run of `mock_queue_retry`: the handler of `StartWork` over a mock store
that fails every `Save`; the failed record comes back after the one record
queued behind it. -/
theorem mock_queue_retry_witness :
    (Mock.MockQueue.Read
      (Mock.MockQueue.readTimes (Mock.startWorkHandler Mock.Save) 1
        (Mock.MockQueue.Read ⟨false, [⟨"t", "t", "t", "INCR", "a", 0⟩,
          ⟨"t", "t", "t", "INCR", "b", 0⟩]⟩
          (Mock.startWorkHandler Mock.Save) (Mock.NewMockDatabase true)).2.2.1
        (Mock.MockQueue.Read ⟨false, [⟨"t", "t", "t", "INCR", "a", 0⟩,
          ⟨"t", "t", "t", "INCR", "b", 0⟩]⟩
          (Mock.startWorkHandler Mock.Save) (Mock.NewMockDatabase true)).2.2.2).1
      (Mock.startWorkHandler Mock.Save)
      (Mock.MockQueue.readTimes (Mock.startWorkHandler Mock.Save) 1
        (Mock.MockQueue.Read ⟨false, [⟨"t", "t", "t", "INCR", "a", 0⟩,
          ⟨"t", "t", "t", "INCR", "b", 0⟩]⟩
          (Mock.startWorkHandler Mock.Save) (Mock.NewMockDatabase true)).2.2.1
        (Mock.MockQueue.Read ⟨false, [⟨"t", "t", "t", "INCR", "a", 0⟩,
          ⟨"t", "t", "t", "INCR", "b", 0⟩]⟩
          (Mock.startWorkHandler Mock.Save) (Mock.NewMockDatabase true)).2.2.2).2).2.1
      = some ⟨"t", "t", "t", "INCR", "a", 0⟩ :=
  (mock_queue_retry ⟨"t", "t", "t", "INCR", "a", 0⟩ [⟨"t", "t", "t", "INCR", "b", 0⟩]
    (Mock.startWorkHandler Mock.Save) (Mock.NewMockDatabase true)).2.2.2.2.1 rfl

/-- C9, the code at the failing input. When the first connection has no
channel, as after `Connection.reset`, `RabbitMQ.Save` does not return an
error: the index expression `Channels[0]` panics. -/
theorem rabbitmq_save_panics_without_channel (c : Rabbitmq.Connection)
    (cs : List Rabbitmq.Connection) (msg : Message) :
    c.reset.Channels = [] ∧
      Rabbitmq.Save ⟨c.reset :: cs⟩ msg
        = Rabbitmq.Outcome.panicked "index out of range [0] with length 0" ∧
      ∀ e : Option Err, Rabbitmq.Save ⟨c.reset :: cs⟩ msg ≠ Rabbitmq.Outcome.returned e := by
  have hs : Rabbitmq.Save ⟨c.reset :: cs⟩ msg
      = Rabbitmq.Outcome.panicked "index out of range [0] with length 0" := by
    simp [Rabbitmq.Save, Rabbitmq.Connection.reset]
  refine ⟨rfl, hs, fun e h => ?_⟩
  rw [hs] at h
  cases h

end Sheep
